import Mathlib

/-!
Verification development for the on-call scheduling and escalation-policy core
of the team/user management service.

The stores are shallowly embedded: a MongoDB collection is a `List` of records
in natural (insertion) order; `find` without a sort is `List.filter`,
`findOne` is the head of that filter; a document `save` is modelled together
with the schema middleware that runs on it (validation first, then the
`pre("save")` hook, then the write), and `findByIdAndUpdate` is modelled
without the save hook, as in mongoose.  Times are milliseconds since epoch
(`Int`); ids are `Nat`.
-/

namespace TeamUserService

/-- Error taxonomy of the service (HTTP codes are an external concern).
`fuelExhausted` is an artifact of the bounded modelling of the recursive
`save` hook; no theorem below relies on it firing. -/
inductive Err where
  | invalidArgument
  | notFound
  | conflict
  | validationError
  | duplicateKey
  | fuelExhausted
deriving Repr, DecidableEq

/-! ## OnCallSchedule store -/

/-- A record of the `OnCallSchedule` collection
(`src/team-user-service-app/src/models/onCallSchedule/onCallSchedule.schema.ts`). -/
structure Schedule where
  id : Nat
  teamId : Nat
  userId : Nat
  priorityLevel : Nat
  startTime : Int
  endTime : Int
  isDeleted : Bool
  deletedAt : Option Int
deriving Repr, DecidableEq

/-- Default grace period of the auto-resolution hook:
`doc.$locals?.gracePeriodMinutes ?? 5` minutes, in milliseconds. -/
def defaultGraceMs : Int := 5 * 60 * 1000

/-- Schema validation of a schedule document (onCallSchedule.schema.ts):
`endTime` must be after `startTime`, `priorityLevel` between 1 and 10.
In mongoose this runs when `save()` is called, before the `pre("save")` hook. -/
def validSchedule (s : Schedule) : Bool :=
  decide (s.startTime < s.endTime) && decide (1 ≤ s.priorityLevel)
    && decide (s.priorityLevel ≤ 10)

/-- Mongoose `save` write: replace the document with the same `_id` if it is
already persisted, otherwise append it (insertion order = natural order). -/
def upsertById (state : List Schedule) (doc : Schedule) : List Schedule :=
  if state.any (fun s => s.id == doc.id) then
    state.map (fun s => if s.id == doc.id then doc else s)
  else state ++ [doc]

/-- Filter of the conflicts query in the `pre("save")` hook
(onCallSchedule.middleware.ts lines 31-38): other records of the same
(team, priorityLevel), not soft-deleted, intersecting the grace-adjusted
window `[startTime - g, endTime + g]` strictly. -/
def inConflictWindow (doc : Schedule) (g : Int) (s : Schedule) : Bool :=
  s.id != doc.id && s.teamId == doc.teamId
    && s.priorityLevel == doc.priorityLevel && !s.isDeleted
    && decide (s.startTime < doc.endTime + g)
    && decide (s.endTime > doc.startTime - g)

/-- The conflicts query of the hook.  The source applies no `.sort()`, so the
result keeps the collection's natural order. -/
def conflictsQuery (state : List Schedule) (doc : Schedule) (g : Int) :
    List Schedule :=
  state.filter (inConflictWindow doc g)

/-- Overlap duration `min(ends) - max(starts)` of two schedules
(onCallSchedule.middleware.ts lines 43-49). -/
def overlapDuration (a b : Schedule) : Int :=
  min a.endTime b.endTime - max a.startTime b.startTime

/-- The resolution loop of the `pre("save")` hook
(onCallSchedule.middleware.ts lines 42-73).  `saveFn` is the recursive
`conflict.save()` call (which re-enters validation and the hook).  The loop
threads the mutable `doc` (its `startTime` may be pushed) and the store state
(conflict writes are applied as they happen; a failing `conflict.save()`
aborts the whole write, leaving the writes already applied in place). -/
def resolveLoop (saveFn : List Schedule → Schedule → Except Err (List Schedule))
    (state : List Schedule) (cs : List Schedule) (doc : Schedule)
    (g now : Int) : Except Err (List Schedule × Schedule) :=
  match cs with
  | [] => .ok (state, doc)
  | c :: rest =>
    let od := overlapDuration c doc
    if |od| ≤ g then
      resolveLoop saveFn state rest doc g now
    else if c.endTime > doc.startTime && c.endTime < doc.endTime then
      match saveFn state { c with endTime := doc.startTime - 1 } with
      | .error e => .error e
      | .ok state1 => resolveLoop saveFn state1 rest doc g now
    else if doc.startTime < c.endTime && doc.startTime > c.startTime then
      resolveLoop saveFn state rest { doc with startTime := c.endTime + 1 } g now
    else if c.startTime < doc.startTime then
      match saveFn state { c with isDeleted := true, deletedAt := some now } with
      | .error e => .error e
      | .ok state1 => resolveLoop saveFn state1 rest doc g now
    else
      resolveLoop saveFn state rest { doc with startTime := c.endTime + 1 } g now

/-- A full `doc.save()`: schema validation, then the `pre("save")` hook
(skipped for soft-deleted documents), then the write.  Fuel bounds the
recursion depth of the nested `conflict.save()` calls; the hook's own
mutations of `doc` are not re-validated (mongoose validates before the
`pre("save")` middleware runs). -/
def saveSchedule : Nat → List Schedule → Schedule → Int → Int →
    Except Err (List Schedule)
  | 0, _, _, _, _ => .error .fuelExhausted
  | Nat.succ fuel, state, doc, g, now =>
    if !validSchedule doc then .error .validationError
    else if doc.isDeleted then .ok (upsertById state doc)
    else
      match resolveLoop (fun st c => saveSchedule fuel st c g now) state
          (conflictsQuery state doc g) doc g now with
      | .error e => .error e
      | .ok (state1, doc1) => .ok (upsertById state1 doc1)

/-- The overlap test of the external creation entry point
(`createOnCallSchedule`): any record of the same team — at any priority
level — that is not soft-deleted (added by the `pre(/^find/)` hook) and
touches `[startT, endT]` inclusively. -/
def rejectOverlap (teamId : Nat) (startT endT : Int) (s : Schedule) : Bool :=
  s.teamId == teamId && !s.isDeleted && decide (s.startTime ≤ endT)
    && decide (s.endTime ≥ startT)

/-- `createOnCallSchedule` (controller): rejects `start ≥ end` as
InvalidArgument, rejects with Conflict when the team-wide overlap query finds
a record, otherwise creates the document (which runs the save hook). -/
def createOnCallSchedule (state : List Schedule) (teamId userId priorityLevel : Nat)
    (startT endT : Int) (newId : Nat) (now : Int) : Except Err (List Schedule) :=
  if startT ≥ endT then .error .invalidArgument
  else if (state.find? (rejectOverlap teamId startT endT)).isSome then
    .error .conflict
  else
    saveSchedule (state.length + 1) state
      ⟨newId, teamId, userId, priorityLevel, startT, endT, false, none⟩
      defaultGraceMs now

/-- Optional fields of a PATCH update request for a schedule. -/
structure ScheduleUpdate where
  startTime : Option Int := none
  endTime : Option Int := none
  priorityLevel : Option Nat := none
deriving Repr, DecidableEq

/-- Apply the `$set` part of `findByIdAndUpdate` to a document. -/
def applyScheduleUpdate (s : Schedule) (u : ScheduleUpdate) : Schedule :=
  { s with
    startTime := u.startTime.getD s.startTime,
    endTime := u.endTime.getD s.endTime,
    priorityLevel := u.priorityLevel.getD s.priorityLevel }

/-- `updateOnCallSchedule` (controller): the overlap check runs only when a
time field is updated, and `findByIdAndUpdate` does not trigger the
`pre("save")` hook, so no auto-resolution runs.  `runValidators` re-checks the
updated `priorityLevel` bounds.  All lookups exclude soft-deleted records via
the `pre(/^find/)` hook. -/
def updateOnCallSchedule (state : List Schedule) (sid : Nat)
    (u : ScheduleUpdate) : Except Err (List Schedule) :=
  let doWrite : Except Err (List Schedule) :=
    match state.find? (fun s => s.id == sid && !s.isDeleted) with
    | none => .error .notFound
    | some s =>
      let s1 := applyScheduleUpdate s u
      if u.priorityLevel.isSome
          && !(decide (1 ≤ s1.priorityLevel) && decide (s1.priorityLevel ≤ 10))
      then .error .validationError
      else .ok (state.map (fun t => if t.id == sid && !t.isDeleted then s1 else t))
  if u.startTime.isSome || u.endTime.isSome then
    match state.find? (fun s => s.id == sid && !s.isDeleted) with
    | none => .error .notFound
    | some existing =>
      let ns := u.startTime.getD existing.startTime
      let ne := u.endTime.getD existing.endTime
      if (state.find? (fun s => s.id != sid && s.teamId == existing.teamId
          && !s.isDeleted && decide (s.startTime ≤ ne)
          && decide (s.endTime ≥ ns))).isSome then
        .error .conflict
      else doWrite
  else doWrite

/-- Covering test of the current-on-call queries: same team, not soft-deleted
(`pre(/^find/)` hook), and `startTime ≤ at ≤ endTime` (inclusive bounds in the
source: `$lte` / `$gte`). -/
def coversAt (teamId : Nat) (at_ : Int) (s : Schedule) : Bool :=
  s.teamId == teamId && !s.isDeleted && decide (s.startTime ≤ at_)
    && decide (s.endTime ≥ at_)

/-- The `findCurrentSchedule` static (onCallSchedule.model.ts lines 43-53):
`findOne` with no sort, hence the first covering record in natural order. -/
def findCurrentSchedule (state : List Schedule) (teamId : Nat) (at_ : Int) :
    Option Schedule :=
  (state.filter (coversAt teamId at_)).head?

/-- Stable insertion of a schedule into a list ordered by ascending
`priorityLevel`. -/
def insertByPriority (s : Schedule) : List Schedule → List Schedule
  | [] => [s]
  | t :: rest =>
    if s.priorityLevel ≤ t.priorityLevel then s :: t :: rest
    else t :: insertByPriority s rest

/-- Stable sort by ascending `priorityLevel`, modelling
`.sort(\x7b priorityLevel: 1 \x7d)`. -/
def sortByPriority : List Schedule → List Schedule
  | [] => []
  | s :: rest => insertByPriority s (sortByPriority rest)

/-- `getCurrentOnCall` (controller) and the resolver's on-call query:
`findOne` over covering records sorted by ascending `priorityLevel`. -/
def getCurrentOnCall (state : List Schedule) (teamId : Nat) (now : Int) :
    Option Schedule :=
  (sortByPriority (state.filter (coversAt teamId now))).head?

/-- The schedule-store invariant of the specification: for each
(team, priorityLevel) pair, no two distinct non-deleted schedules overlap
beyond the grace margin. -/
def noExcessiveOverlap (state : List Schedule) (g : Int) : Prop :=
  ∀ a ∈ state, ∀ b ∈ state, a.id ≠ b.id → a.teamId = b.teamId →
    a.priorityLevel = b.priorityLevel → a.isDeleted = false →
    b.isDeleted = false → overlapDuration a b ≤ g

instance (state : List Schedule) (g : Int) :
    Decidable (noExcessiveOverlap state g) := by
  unfold noExcessiveOverlap; infer_instance

/-! ## EscalationPolicy store -/

/-- Target kind of an escalation step. -/
inductive EscKind where
  | user
  | team
deriving Repr, DecidableEq

/-- An embedded escalation step (escalationPolicy.schema.ts).  The schema
requires `escalationTargetId`; it is optional here because the resolver
guards against documents that lack it (`if (!step.escalationTargetId)
continue`). -/
structure EscalationStep where
  order : Nat
  timeoutMinutes : Nat
  escalationType : EscKind
  escalationTargetId : Option Nat
deriving Repr, DecidableEq

/-- A record of the `EscalationPolicy` collection. -/
structure Policy where
  id : Nat
  teamId : Nat
  policyName : String
  escalationSteps : List EscalationStep
  version : Nat
  isLatest : Bool
  isDeleted : Bool
  deletedAt : Option Int
deriving Repr, DecidableEq

/-- Duplicate-order detection of the `pre("validate")` hook: each escalation
step must have a unique `order`. -/
def ordersNodup : List Nat → Bool
  | [] => true
  | o :: rest => !rest.contains o && ordersNodup rest

/-- Stable insertion of a step into a list ordered by ascending `order`. -/
def insertByOrder (s : EscalationStep) : List EscalationStep → List EscalationStep
  | [] => [s]
  | t :: rest =>
    if s.order ≤ t.order then s :: t :: rest else t :: insertByOrder s rest

/-- The `pre("save")` step sort of the policy middleware:
`escalationSteps.sort((a, b) => a.order - b.order)`. -/
def sortStepsByOrder : List EscalationStep → List EscalationStep
  | [] => []
  | s :: rest => insertByOrder s (sortStepsByOrder rest)

/-- Mongoose write for policies, by `_id`. -/
def upsertPolicyById (state : List Policy) (p : Policy) : List Policy :=
  if state.any (fun q => q.id == p.id) then
    state.map (fun q => if q.id == p.id then p else q)
  else state ++ [p]

/-- A policy document `save()`: the `pre("validate")` unique-order check and
the schema's required `escalationTargetId`, then the `pre("save")` sort of the
steps, then the write, which MongoDB rejects with a duplicate-key error when
another document occupies the unique `(teamId, version)` index entry
(escalationPolicy.schema.ts line 36). -/
def savePolicy (state : List Policy) (p : Policy) : Except Err (List Policy) :=
  if !ordersNodup (p.escalationSteps.map (·.order)) then .error .validationError
  else if p.escalationSteps.any (fun s => s.escalationTargetId.isNone) then
    .error .validationError
  else if state.any (fun q => q.id != p.id && q.teamId == p.teamId
      && q.version == p.version) then .error .duplicateKey
  else .ok (upsertPolicyById state
    { p with escalationSteps := sortStepsByOrder p.escalationSteps })

/-- The latest-lookup of `createNewVersion`:
`findOne(\x7b teamId, isLatest: true \x7d)`, to which the `pre(/^find/)` hook
adds `isDeleted: false` — so a soft-deleted latest is invisible here. -/
def findLatestRaw (state : List Policy) (teamId : Nat) : Option Policy :=
  (state.filter (fun q => q.teamId == teamId && q.isLatest && !q.isDeleted)).head?

/-- `findLatestByTeam` static: identical filter to `findLatestRaw`
(its explicit `isDeleted: false` coincides with the hook's). -/
def findLatestByTeam (state : List Policy) (teamId : Nat) : Option Policy :=
  findLatestRaw state teamId

/-- Version lookup `findOne(\x7b teamId, version \x7d)` used by
`rollbackToVersion`; the `pre(/^find/)` hook excludes soft-deleted records. -/
def findVersionRaw (state : List Policy) (teamId version : Nat) : Option Policy :=
  (state.filter (fun q => q.teamId == teamId && q.version == version
    && !q.isDeleted)).head?

/-- The `updates` argument of `createNewVersion`.  In the source it is a
`Partial<IEscalationPolicy>`, but the payload construction overrides `_id`,
`teamId`, `version`, `isLatest`, `isDeleted` and `deletedAt` after spreading
`updates`, so only the policy name and the steps can come from it. -/
structure PolicyUpdates where
  policyName : Option String := none
  escalationSteps : Option (List EscalationStep) := none
deriving Repr, DecidableEq

/-- Insertion step shared by both branches of `createNewVersion`: save the
new payload document (sorting its steps, validating, honoring the unique
(teamId, version) index) and return the created document; on failure the
store is left as it was before this insertion. -/
def insertPayload (state : List Policy) (payload : Policy) :
    List Policy × Except Err Policy :=
  match savePolicy state payload with
  | .error e => (state, .error e)
  | .ok state2 =>
    (state2, .ok { payload with
      escalationSteps := sortStepsByOrder payload.escalationSteps })

/-- `createNewVersion` (part_005 lines 24-60): flip the current non-deleted
latest (if any) to non-latest and save it, then insert a new record seeded
from the previous latest, overridden by `updates`, with
`version = (latest?.version || 0) + 1` and `isLatest = true`.  The two writes
are not transactional: a failure of the second leaves the flip persisted. -/
def createNewVersion (state : List Policy) (teamId : Nat)
    (updates : PolicyUpdates) (newId : Nat) :
    List Policy × Except Err Policy :=
  match findLatestRaw state teamId with
  | some latest =>
    match savePolicy state { latest with isLatest := false } with
    | .error e => (state, .error e)
    | .ok state1 =>
      insertPayload state1
        ⟨newId, teamId, updates.policyName.getD latest.policyName,
          updates.escalationSteps.getD latest.escalationSteps,
          latest.version + 1, true, false, none⟩
  | none =>
    insertPayload state
      ⟨newId, teamId, updates.policyName.getD "policy",
        updates.escalationSteps.getD [], 1, true, false, none⟩

/-- `rollbackToVersion` (part_005 lines 62-75): load the target version
(error when absent — soft-deleted versions are invisible to the lookup), then
delegate to `createNewVersion` with the target's name and steps. -/
def rollbackToVersion (state : List Policy) (teamId version newId : Nat) :
    List Policy × Except Err Policy :=
  match findVersionRaw state teamId version with
  | none => (state, .error .notFound)
  | some target =>
    createNewVersion state teamId
      ⟨some target.policyName, some target.escalationSteps⟩ newId

/-- The per-team exactly-one-latest invariant: no two distinct non-deleted
records of the same team both carry `isLatest = true`. -/
def atMostOneLatest (state : List Policy) : Prop :=
  ∀ p ∈ state, ∀ q ∈ state, p.id ≠ q.id → p.teamId = q.teamId →
    p.isDeleted = false → q.isDeleted = false → p.isLatest = true →
    q.isLatest = true → False

instance (state : List Policy) : Decidable (atMostOneLatest state) := by
  unfold atMostOneLatest; infer_instance

/-! ## Responsibility resolver -/

/-- A record of the `Service` collection (service.schema.ts); only the fields
the resolver reads are embedded. -/
structure Svc where
  id : Nat
  serviceName : String
  teamId : Nat
  isDeleted : Bool
deriving Repr, DecidableEq

/-- A record of the `Team` collection (Team.model.ts). -/
structure TeamRec where
  id : Nat
  name : String
deriving Repr, DecidableEq

/-- Modelled from the spec: the repository has no `User` mongoose model under
src/ (user data lives behind the identity-lookup interface), so the user
collection queried by `findById` in the resolver and by the on-call
`populate` is modelled as a plain id-keyed store, per the spec's
"Identity/Team lookup: resolves ids to display metadata". -/
structure UserRec where
  id : Nat
  fullName : String
deriving Repr, DecidableEq

/-- Target slot of a responsibility-chain entry: either the populated
document's id, or the `\x7b _id, missing: true \x7d` placeholder the resolver
substitutes when `findById` returns nothing. -/
inductive ChainTarget where
  | found (id : Nat)
  | missing (id : Nat)
deriving Repr, DecidableEq

/-- An entry of the derived responsibility chain. -/
structure ChainEntry where
  order : Nat
  kind : EscKind
  timeoutMinutes : Nat
  target : ChainTarget
deriving Repr, DecidableEq

/-- Step-0 timeout: `escalationPolicy?.escalationSteps?.[0]?.timeoutMinutes
|| 15` — a JavaScript `||`, so a stored timeout of 0 also falls back to 15. -/
def primaryTimeout (steps : List EscalationStep) : Nat :=
  match steps.head? with
  | some s => if s.timeoutMinutes = 0 then 15 else s.timeoutMinutes
  | none => 15

/-- Target resolution of one escalation step (`requireModel(...).findById`
in internal.controller.ts): the target id is looked up in the user or team
collection according to the step's escalationType. -/
def targetResolves (users : List UserRec) (teams : List TeamRec)
    (kind : EscKind) (tid : Nat) : Bool :=
  match kind with
  | EscKind.user => (users.find? (fun u => u.id == tid)).isSome
  | EscKind.team => (teams.find? (fun t => t.id == tid)).isSome

/-- Materialization of one stored escalation step into a chain entry:
steps without a target id are skipped (`continue`), and an unresolvable
target id is emitted with the missing placeholder instead of failing. -/
def chainEntryOfStep (users : List UserRec) (teams : List TeamRec)
    (st : EscalationStep) : Option ChainEntry :=
  match st.escalationTargetId with
  | none => none
  | some tid =>
    some ⟨st.order, st.escalationType, st.timeoutMinutes,
      if targetResolves users teams st.escalationType tid then
        ChainTarget.found tid
      else ChainTarget.missing tid⟩

/-- `getResponsibilityForService` (internal.controller.ts): resolve the
service by name (soft-deleted services are invisible via the service
middleware), 404 when the service or its populated team is absent; fetch the
current on-call (covering `now`, lowest priority first) and populate its
user; fetch the latest non-deleted policy; emit step 0 for the on-call user
when one resolved, then each stored policy step, skipping steps without a
target id and substituting a missing placeholder when the target no longer
resolves.  The controller only reads; it returns no updated store. -/
def getResponsibilityForService (services : List Svc) (teams : List TeamRec)
    (users : List UserRec) (schedules : List Schedule) (policies : List Policy)
    (serviceName : String) (now : Int) : Except Err (List ChainEntry) :=
  match (services.filter (fun s => s.serviceName == serviceName
      && !s.isDeleted)).head? with
  | none => .error .notFound
  | some svc =>
    if (teams.find? (fun t => t.id == svc.teamId)).isNone then .error .notFound
    else
      let onCallUser : Option UserRec :=
        (getCurrentOnCall schedules svc.teamId now).bind
          (fun sch => users.find? (fun u => u.id == sch.userId))
      let latest : Option Policy :=
        (policies.filter (fun p => p.teamId == svc.teamId && p.isLatest
          && !p.isDeleted)).head?
      let steps : List EscalationStep := (latest.map (·.escalationSteps)).getD []
      let primary : List ChainEntry :=
        match onCallUser with
        | some u => [⟨0, EscKind.user, primaryTimeout steps, ChainTarget.found u.id⟩]
        | none => []
      .ok (primary ++ steps.filterMap (chainEntryOfStep users teams))

/-! ## Shared lemmas -/

instance {ε α : Type} [DecidableEq ε] [DecidableEq α] :
    DecidableEq (Except ε α) := fun x y =>
  match x, y with
  | .ok u, .ok v =>
    if h : u = v then isTrue (by rw [h]) else isFalse (by simp [h])
  | .error u, .error v =>
    if h : u = v then isTrue (by rw [h]) else isFalse (by simp [h])
  | .ok _, .error _ => isFalse (by simp)
  | .error _, .ok _ => isFalse (by simp)

/-- When every enumerated conflict's overlap lies within the grace margin the
resolution loop is a no-op: no record is written and the document keeps its
boundaries. -/
theorem resolveLoop_skip_all
    (saveFn : List Schedule → Schedule → Except Err (List Schedule))
    (state : List Schedule) (doc : Schedule) (g now : Int) :
    ∀ cs : List Schedule, (∀ c ∈ cs, |overlapDuration c doc| ≤ g) →
      resolveLoop saveFn state cs doc g now = .ok (state, doc) := by
  intro cs
  induction cs with
  | nil => intro _; rfl
  | cons c rest ih =>
    intro h
    have hc : |overlapDuration c doc| ≤ g := h c (by simp)
    simp only [resolveLoop, if_pos hc]
    exact ih (fun x hx => h x (by simp [hx]))

/-- The resolution loop never produces a Conflict error of its own. -/
theorem resolveLoop_ne_conflict
    (saveFn : List Schedule → Schedule → Except Err (List Schedule))
    (hsave : ∀ st c, saveFn st c ≠ .error .conflict) :
    ∀ (cs state : List Schedule) (doc : Schedule) (g now : Int),
      resolveLoop saveFn state cs doc g now ≠ .error .conflict := by
  intro cs
  induction cs with
  | nil => intro state doc g now; simp [resolveLoop]
  | cons c rest ih =>
    intro state doc g now
    simp only [resolveLoop]
    split
    · exact ih state doc g now
    · split
      · split
        · rename_i e heq
          intro hc
          injection hc with he
          rw [he] at heq
          exact hsave _ _ heq
        · exact ih _ doc g now
      · split
        · exact ih state _ g now
        · split
          · split
            · rename_i e heq
              intro hc
              injection hc with he
              rw [he] at heq
              exact hsave _ _ heq
            · exact ih _ doc g now
          · exact ih state _ g now

/-- A schedule `save()` never fails with Conflict: the only Conflict source is
the external creation entry point's reject-mode check. -/
theorem saveSchedule_ne_conflict :
    ∀ (fuel : Nat) (state : List Schedule) (doc : Schedule) (g now : Int),
      saveSchedule fuel state doc g now ≠ .error .conflict := by
  intro fuel
  induction fuel with
  | zero => intro state doc g now; simp [saveSchedule]
  | succ f ih =>
    intro state doc g now
    simp only [saveSchedule]
    split
    · decide
    · split
      · exact fun h => Except.noConfusion h
      · split
        · rename_i e heq
          have hrl := resolveLoop_ne_conflict (fun st c => saveSchedule f st c g now)
            (fun st c => ih st c g now) (conflictsQuery state doc g) state doc g now
          intro hc
          injection hc with he
          rw [he] at heq
          exact hrl heq
        · exact fun h => Except.noConfusion h

/-- Saving a document whose id is fresh appends it in natural order. -/
theorem upsertById_fresh (state : List Schedule) (doc : Schedule)
    (hfresh : ∀ s ∈ state, s.id ≠ doc.id) :
    upsertById state doc = state ++ [doc] := by
  unfold upsertById
  have h : state.any (fun s => s.id == doc.id) = false := by
    rw [Bool.eq_false_iff]
    intro hany
    rw [List.any_eq_true] at hany
    obtain ⟨s, hs, hbeq⟩ := hany
    exact hfresh s hs (by simpa using hbeq)
  simp [h]

/-! ## Claim C3 -/

/-- C3 counterexample state: two disjoint persisted schedules, the later one
inserted first, both inside the grace-adjusted window of a new document. -/
def c3first : Schedule := ⟨1, 1, 1, 1, 1000, 2000, false, none⟩

/-- Second inserted record of the C3 counterexample, earlier start time. -/
def c3second : Schedule := ⟨2, 1, 1, 1, 0, 900, false, none⟩

/-- New document of the C3 counterexample, spanning both records. -/
def c3doc : Schedule := ⟨3, 1, 1, 1, 0, 5000, false, none⟩

/-- Claim C3, counterexample: the conflicts query of the auto-resolution hook
applies no sort, so the enumeration follows the store's natural (insertion)
order; here the record with the later start time is enumerated first, so the
enumeration is not in ascending order of start time. -/
theorem c3_counterexample :
    conflictsQuery [c3first, c3second] c3doc defaultGraceMs =
      [c3first, c3second] ∧
    c3second.startTime < c3first.startTime := by
  constructor
  · rfl
  · decide

/-- Claim C3 (amended): the enumeration of conflicting records is the
subsequence of the store in its natural (insertion) order consisting of
exactly the non-deleted records of the same (team, priorityLevel) that
intersect the grace-adjusted window; being a pure function of the store
state it is deterministic, but it is not sorted by start time. -/
theorem c3_theorem (state : List Schedule) (doc : Schedule) (g : Int) :
    List.Sublist (conflictsQuery state doc g) state ∧
    ∀ c, c ∈ conflictsQuery state doc g ↔
      c ∈ state ∧ inConflictWindow doc g c = true := by
  refine ⟨List.filter_sublist state, ?_⟩
  intro c
  simp [conflictsQuery, List.mem_filter]

/-! ## Claim C8 -/

/-- Claim C8: when a persisted schedule and the document being saved share a
(team, priorityLevel) and their overlap duration is exactly the grace margin,
the auto-resolution hook skips the conflict: the persisted record keeps its
boundaries, is not tombstoned, and the new document is persisted unchanged. -/
theorem c8_theorem (c d : Schedule) (g now : Int) (fuel : Nat)
    (hg : 0 ≤ g) (hid : c.id ≠ d.id)
    (hteam : c.teamId = d.teamId) (hprio : c.priorityLevel = d.priorityLevel)
    (hcdel : c.isDeleted = false) (hddel : d.isDeleted = false)
    (hdv : validSchedule d = true)
    (hover : overlapDuration c d = g) :
    saveSchedule (fuel + 1) [c] d g now = .ok [c, d] := by
  have hskip : ∀ x ∈ conflictsQuery [c] d g, |overlapDuration x d| ≤ g := by
    intro x hx
    simp only [conflictsQuery] at hx
    have hx' : x ∈ [c] := (List.filter_sublist [c]).subset hx
    have hxc : x = c := by simpa using hx'
    subst hxc
    rw [hover]
    rw [abs_of_nonneg hg]
  have hloop := resolveLoop_skip_all (fun st x => saveSchedule fuel st x g now)
    [c] d g now (conflictsQuery [c] d g) hskip
  show saveSchedule (Nat.succ fuel) [c] d g now = .ok [c, d]
  rw [saveSchedule]
  simp only [hdv, hddel, Bool.not_true, Bool.false_eq_true, if_false, hloop]
  rw [upsertById_fresh [c] d (by intro s hs; simp at hs; rw [hs]; exact hid)]
  rfl

/-- Claim C8 witness: a persisted schedule covering `[0, g]` and a new
document `[0, 3g]` overlap for exactly `g = 5` minutes and both survive the
save untouched. -/
theorem c8_witness :
    saveSchedule 1 [⟨1, 1, 1, 1, 0, 300000, false, none⟩]
      ⟨2, 1, 2, 1, 0, 900000, false, none⟩ 300000 0 =
      .ok [⟨1, 1, 1, 1, 0, 300000, false, none⟩,
        ⟨2, 1, 2, 1, 0, 900000, false, none⟩] :=
  c8_theorem ⟨1, 1, 1, 1, 0, 300000, false, none⟩
    ⟨2, 1, 2, 1, 0, 900000, false, none⟩ 300000 0 0
    (by decide) (by decide) rfl rfl rfl rfl (by decide) (by decide)

/-! ## Claim C4 -/

/-- C4 counterexample conflict: a persisted schedule `[16:00, 16:30)` sharing
its start with the new document. -/
def c4conf : Schedule := ⟨1, 1, 1, 1, 57600000, 59400000, false, none⟩

/-- C4 counterexample new document `[16:00, 20:00)`. -/
def c4new : Schedule := ⟨2, 1, 2, 1, 57600000, 72000000, false, none⟩

/-- Claim C4, counterexample: the conflict's end falls strictly inside the new
document's span and the overlap (30 minutes) exceeds the 5-minute grace
margin, yet auto-resolution does not truncate-and-persist: the truncated end
`new.start - 1ms` precedes the conflict's start, the schema validator
`endTime > startTime` rejects the `conflict.save()`, and the whole write
fails. -/
theorem c4_counterexample :
    c4conf.endTime > c4new.startTime ∧ c4conf.endTime < c4new.endTime ∧
    defaultGraceMs < overlapDuration c4conf c4new ∧
    saveSchedule 3 [c4conf] c4new defaultGraceMs 0 = .error .validationError := by
  refine ⟨by decide, by decide, by decide, ?_⟩
  rfl

/-- Claim C4 (amended): when additionally the conflict starts more than one
millisecond before the new document's start (so that the truncated conflict
still satisfies the schema's `endTime > startTime` validator), rule 1 of the
auto-resolution hook truncates the conflict's end to `new.start - 1ms` and
persists it, leaving the new document's boundaries unchanged; Scenario A
(S1 = 09:00-17:00, S2 = 16:00-20:00, grace five minutes) is an instance. -/
theorem c4_theorem (c d : Schedule) (g now : Int) (fuel : Nat)
    (hg : 0 ≤ g) (hid : c.id ≠ d.id)
    (hteam : c.teamId = d.teamId) (hprio : c.priorityLevel = d.priorityLevel)
    (hcdel : c.isDeleted = false) (hddel : d.isDeleted = false)
    (hcv : validSchedule c = true) (hdv : validSchedule d = true)
    (hstart : c.startTime < d.startTime - 1)
    (hin1 : d.startTime < c.endTime) (hin2 : c.endTime < d.endTime)
    (hover : g < overlapDuration c d) :
    saveSchedule (fuel + 2) [c] d g now =
      .ok [{ c with endTime := d.startTime - 1 }, d] := by
  have hcv' : (decide (c.startTime < c.endTime) && decide (1 ≤ c.priorityLevel)
      && decide (c.priorityLevel ≤ 10)) = true := hcv
  simp only [Bool.and_eq_true, decide_eq_true_eq] at hcv'
  have hwin : inConflictWindow d g c = true := by
    simp only [inConflictWindow, bne_iff_ne, ne_eq, Bool.and_eq_true,
      decide_eq_true_eq, beq_iff_eq]
    refine ⟨⟨⟨⟨⟨hid, hteam⟩, hprio⟩, by simp [hcdel]⟩, by omega⟩, by omega⟩
  have hconf : conflictsQuery [c] d g = [c] := by
    simp [conflictsQuery, hwin]
  have hskipF : ¬(|overlapDuration c d| ≤ g) := by
    rw [abs_of_pos (lt_of_le_of_lt hg hover)]
    omega
  have hcond1 : (decide (c.endTime > d.startTime)
      && decide (c.endTime < d.endTime)) = true := by
    simp only [Bool.and_eq_true, decide_eq_true_eq]
    exact ⟨hin1, hin2⟩
  have hinnerValid : validSchedule { c with endTime := d.startTime - 1 } = true := by
    simp only [validSchedule, Bool.and_eq_true, decide_eq_true_eq]
    refine ⟨⟨by omega, hcv'.1.2⟩, hcv'.2⟩
  have hinnerDel : ({ c with endTime := d.startTime - 1 } : Schedule).isDeleted
      = false := hcdel
  have hinnerConf :
      conflictsQuery [c] { c with endTime := d.startTime - 1 } g = [] := by
    simp [conflictsQuery, inConflictWindow]
  have hinner : saveSchedule (fuel + 1) [c]
      { c with endTime := d.startTime - 1 } g now =
      .ok [{ c with endTime := d.startTime - 1 }] := by
    show saveSchedule (Nat.succ fuel) [c] _ g now = _
    rw [saveSchedule]
    rw [hinnerValid]
    rw [if_neg (by simp)]
    rw [if_neg (by rw [hinnerDel]; simp)]
    rw [hinnerConf]
    rw [resolveLoop]
    show Except.ok (upsertById [c] _) = _
    have hrepl : upsertById [c] ({ c with endTime := d.startTime - 1 }) =
        [{ c with endTime := d.startTime - 1 }] := by
      simp [upsertById]
    rw [hrepl]
  show saveSchedule (Nat.succ (fuel + 1)) [c] d g now = _
  rw [saveSchedule]
  rw [hdv]
  rw [if_neg (by simp)]
  rw [if_neg (by rw [hddel]; simp)]
  rw [hconf]
  simp only [resolveLoop]
  rw [if_neg hskipF, if_pos hcond1]
  simp only [hinner]
  rw [upsertById_fresh [{ c with endTime := d.startTime - 1 }] d
    (by intro s hs; simp at hs; rw [hs]; exact hid)]
  rfl

/-- Claim C4 witness (Scenario A): S1 = [09:00, 17:00) on (team 1, priority 1)
and a new S2 = [16:00, 20:00) with grace 5 minutes; the overlap is 60 minutes,
rule 1 fires and S1's end becomes 15:59:59.999 while S2 is unchanged. -/
theorem c4_witness :
    saveSchedule 2 [⟨1, 1, 1, 1, 32400000, 61200000, false, none⟩]
      ⟨2, 1, 2, 1, 57600000, 72000000, false, none⟩ defaultGraceMs 0 =
      .ok [⟨1, 1, 1, 1, 32400000, 57599999, false, none⟩,
        ⟨2, 1, 2, 1, 57600000, 72000000, false, none⟩] := by
  exact c4_theorem ⟨1, 1, 1, 1, 32400000, 61200000, false, none⟩
    ⟨2, 1, 2, 1, 57600000, 72000000, false, none⟩ defaultGraceMs 0 0
    (by decide) (by decide) rfl rfl rfl rfl (by decide) (by decide)
    (by decide) (by decide) (by decide) (by decide)

/-! ## Claim C5 -/

/-- C5 counterexample schedule: team 1, priority level 2. -/
def c5existing : Schedule := ⟨1, 1, 1, 2, 0, 1000000, false, none⟩

/-- Claim C5, counterexample: the creation entry point's overlap query filters
only on the team, not on (team, priorityLevel); an overlapping non-deleted
schedule at priority 2 makes a creation at priority 1 fail with Conflict,
although the claim says schedules at a different priority level do not cause
the rejection. -/
theorem c5_counterexample :
    c5existing.priorityLevel ≠ 1 ∧
    createOnCallSchedule [c5existing] 1 9 1 500000 2000000 7 0 =
      .error .conflict :=
  ⟨by decide, rfl⟩

/-- Claim C5 (amended): for a request with start < end, the creation entry
point rejects with Conflict exactly when some non-deleted schedule of the
same team — at any priority level — touches the closed interval
`[start, end]`; the query has no priorityLevel filter, so same-team schedules
at other priority levels cause the rejection as well. -/
theorem c5_theorem (state : List Schedule) (teamId userId priorityLevel : Nat)
    (startT endT : Int) (newId : Nat) (now : Int) (hlt : startT < endT) :
    createOnCallSchedule state teamId userId priorityLevel startT endT newId now
        = .error .conflict ↔
      ∃ s ∈ state, s.teamId = teamId ∧ s.isDeleted = false ∧
        s.startTime ≤ endT ∧ s.endTime ≥ startT := by
  unfold createOnCallSchedule
  rw [if_neg (by omega)]
  by_cases hfind : (state.find? (rejectOverlap teamId startT endT)).isSome
  · rw [if_pos hfind]
    constructor
    · intro _
      rw [List.find?_isSome] at hfind
      obtain ⟨s, hs, hp⟩ := hfind
      simp only [rejectOverlap, Bool.and_eq_true, decide_eq_true_eq,
        beq_iff_eq, Bool.not_eq_true'] at hp
      exact ⟨s, hs, hp.1.1.1, hp.1.1.2, hp.1.2, hp.2⟩
    · intro _; rfl
  · rw [if_neg hfind]
    constructor
    · intro hsave
      exact absurd hsave (saveSchedule_ne_conflict _ _ _ _ _)
    · rintro ⟨s, hs, h1, h2, h3, h4⟩
      exfalso
      apply hfind
      rw [List.find?_isSome]
      exact ⟨s, hs, by
        simp only [rejectOverlap, Bool.and_eq_true, decide_eq_true_eq,
          beq_iff_eq, Bool.not_eq_true']
        exact ⟨⟨⟨h1, h2⟩, h3⟩, h4⟩⟩

/-- Claim C5 witness: an overlapping same-team schedule at priority 2 causes a
priority-1 creation to be rejected with Conflict, through the amended
characterization. -/
theorem c5_witness :
    createOnCallSchedule [⟨1, 1, 1, 2, 500000, 1600000, false, none⟩]
      1 9 1 1500000 2000000 7 0 = .error .conflict :=
  (c5_theorem [⟨1, 1, 1, 2, 500000, 1600000, false, none⟩]
      1 9 1 1500000 2000000 7 0 (by decide)).mpr
    ⟨⟨1, 1, 1, 2, 500000, 1600000, false, none⟩, by simp, rfl, rfl,
      by decide, by decide⟩

/-! ## Claim C6 -/

/-- Membership in a priority-ordered insertion. -/
theorem mem_insertByPriority (s x : Schedule) (l : List Schedule) :
    x ∈ insertByPriority s l ↔ x = s ∨ x ∈ l := by
  induction l with
  | nil => simp [insertByPriority]
  | cons t rest ih =>
    simp only [insertByPriority]
    split
    · simp [List.mem_cons]
    · simp only [List.mem_cons, ih]
      tauto

/-- The priority sort is a permutation as far as membership goes. -/
theorem mem_sortByPriority (x : Schedule) (l : List Schedule) :
    x ∈ sortByPriority l ↔ x ∈ l := by
  induction l with
  | nil => simp [sortByPriority]
  | cons t rest ih =>
    simp only [sortByPriority, mem_insertByPriority, List.mem_cons, ih]

/-- A priority-ordered insertion is never empty. -/
theorem insertByPriority_ne_nil (s : Schedule) (l : List Schedule) :
    insertByPriority s l ≠ [] := by
  cases l with
  | nil => simp [insertByPriority]
  | cons t rest =>
    simp only [insertByPriority]
    split <;> simp

/-- The head of the priority sort has the minimal priority level. -/
theorem sortByPriority_head_min (l : List Schedule) (a : Schedule)
    (rest : List Schedule) (h : sortByPriority l = a :: rest) :
    ∀ b ∈ l, a.priorityLevel ≤ b.priorityLevel := by
  induction l generalizing a rest with
  | nil => exact absurd h (by simp [sortByPriority])
  | cons x xs ih =>
    rw [sortByPriority] at h
    cases hS : sortByPriority xs with
    | nil =>
      rw [hS] at h
      simp only [insertByPriority] at h
      obtain ⟨h1, _⟩ := List.cons.injEq .. ▸ h
      have h1 : a = x := by injection h with h1 h2; exact h1.symm
      subst h1
      intro b hb
      rcases List.mem_cons.mp hb with hb | hb
      · rw [hb]
      · exfalso
        have : b ∈ sortByPriority xs := (mem_sortByPriority b xs).mpr hb
        rw [hS] at this
        simp at this
    | cons y ys =>
      have hy := ih y ys hS
      rw [hS] at h
      simp only [insertByPriority] at h
      split at h
      · rename_i hxy
        injection h with h1 _
        subst h1
        intro b hb
        rcases List.mem_cons.mp hb with hb | hb
        · rw [hb]
        · exact le_trans hxy (hy b hb)
      · rename_i hxy
        injection h with h1 _
        subst h1
        intro b hb
        rcases List.mem_cons.mp hb with hb | hb
        · rw [hb]; omega
        · exact hy b hb

/-- C6 counterexample: persisted first, covering, priority 2. -/
def c6natural : Schedule := ⟨1, 1, 1, 2, 0, 100, false, none⟩

/-- C6 counterexample: persisted second, covering, priority 1. -/
def c6lowest : Schedule := ⟨2, 1, 2, 1, 0, 100, false, none⟩

/-- Claim C6, counterexample: the `findCurrentSchedule` model static
(onCallSchedule.model.ts) issues `findOne` with no priority sort, so it
returns the first covering record in natural order — here the priority-2
record — although a covering priority-1 record exists. -/
theorem c6_counterexample :
    findCurrentSchedule [c6natural, c6lowest] 1 50 = some c6natural ∧
    coversAt 1 50 c6lowest = true ∧
    c6lowest.priorityLevel < c6natural.priorityLevel :=
  ⟨rfl, by decide, by decide⟩

/-- Claim C6 (amended): the exposed current-on-call query (`getCurrentOnCall`,
also used by the resolver), which sorts by ascending priorityLevel, returns a
non-deleted schedule covering the query instant with the lowest priority
level among them, and it returns one whenever a covering schedule exists;
the `findCurrentSchedule` model static, by contrast, applies no sort and
returns the first covering record in natural order. -/
theorem c6_theorem (state : List Schedule) (teamId : Nat) (now : Int) :
    (∀ s, getCurrentOnCall state teamId now = some s →
      s ∈ state ∧ coversAt teamId now s = true ∧
      ∀ t ∈ state, coversAt teamId now t = true →
        s.priorityLevel ≤ t.priorityLevel) ∧
    ((∃ t ∈ state, coversAt teamId now t = true) →
      (getCurrentOnCall state teamId now).isSome) := by
  constructor
  · intro s hs
    unfold getCurrentOnCall at hs
    cases hsort : sortByPriority (state.filter (coversAt teamId now)) with
    | nil => rw [hsort] at hs; simp at hs
    | cons a rest =>
      rw [hsort] at hs
      simp only [List.head?_cons, Option.some.injEq] at hs
      subst hs
      have hmem : a ∈ state.filter (coversAt teamId now) := by
        have hm : a ∈ sortByPriority (state.filter (coversAt teamId now)) := by
          rw [hsort]; simp
        exact (mem_sortByPriority a _).mp hm
      have hsf := List.mem_filter.mp hmem
      refine ⟨hsf.1, hsf.2, ?_⟩
      intro t ht hcov
      exact sortByPriority_head_min _ a rest hsort t
        (List.mem_filter.mpr ⟨ht, hcov⟩)
  · rintro ⟨t, ht, hcov⟩
    unfold getCurrentOnCall
    cases hsort : sortByPriority (state.filter (coversAt teamId now)) with
    | nil =>
      exfalso
      have hm : t ∈ sortByPriority (state.filter (coversAt teamId now)) :=
        (mem_sortByPriority t _).mpr (List.mem_filter.mpr ⟨ht, hcov⟩)
      rw [hsort] at hm
      simp at hm
    | cons a rest => simp

/-- Claim C6 witness: with a covering priority-2 record first and a covering
priority-1 record second, the exposed query returns one (here, necessarily
the lowest-priority one). -/
theorem c6_witness :
    (getCurrentOnCall [⟨1, 1, 1, 2, 0, 100, false, none⟩,
      ⟨2, 1, 2, 1, 0, 100, false, none⟩] 1 50).isSome :=
  (c6_theorem [⟨1, 1, 1, 2, 0, 100, false, none⟩,
      ⟨2, 1, 2, 1, 0, 100, false, none⟩] 1 50).2
    ⟨⟨2, 1, 2, 1, 0, 100, false, none⟩, by simp, by decide⟩

/-! ## EscalationPolicy store lemmas -/

/-- A successful latest-lookup returns a member that is a non-deleted latest
record of the team. -/
theorem findLatestRaw_some (state : List Policy) (teamId : Nat) (l : Policy)
    (h : findLatestRaw state teamId = some l) :
    l ∈ state ∧ l.teamId = teamId ∧ l.isLatest = true ∧ l.isDeleted = false := by
  unfold findLatestRaw at h
  have hm := List.mem_of_mem_head? h
  have hf := List.mem_filter.mp hm
  refine ⟨hf.1, ?_⟩
  have hp := hf.2
  simp only [Bool.and_eq_true, beq_iff_eq, Bool.not_eq_true'] at hp
  exact ⟨hp.1.1, hp.1.2, hp.2⟩

/-- A failed latest-lookup means the team has no non-deleted latest record. -/
theorem findLatestRaw_none (state : List Policy) (teamId : Nat)
    (h : findLatestRaw state teamId = none) :
    ∀ p ∈ state, p.teamId = teamId → p.isLatest = true →
      p.isDeleted = false → False := by
  unfold findLatestRaw at h
  rw [List.head?_eq_none_iff] at h
  intro p hp h1 h2 h3
  have hmem : p ∈ state.filter (fun q => q.teamId == teamId && q.isLatest
      && !q.isDeleted) := List.mem_filter.mpr ⟨hp, by simp [h1, h2, h3]⟩
  rw [h] at hmem
  simp at hmem

/-- Any member of a policy upsert is the written document or an untouched
original with a different id. -/
theorem mem_upsertPolicyById (state : List Policy) (p q : Policy)
    (hq : q ∈ upsertPolicyById state p) :
    q = p ∨ (q ∈ state ∧ q.id ≠ p.id) := by
  unfold upsertPolicyById at hq
  split at hq
  · rw [List.mem_map] at hq
    obtain ⟨r, hr, hrq⟩ := hq
    by_cases hid : (r.id == p.id) = true
    · left
      rw [if_pos hid] at hrq
      exact hrq.symm
    · right
      rw [if_neg hid] at hrq
      subst hrq
      exact ⟨hr, by simpa using hid⟩
  · rename_i hany
    rw [List.mem_append] at hq
    rcases hq with h | h
    · right
      refine ⟨h, fun he => hany ?_⟩
      exact List.any_eq_true.mpr ⟨q, h, by simp [he]⟩
    · left
      simpa using h

/-- Writing a policy document with a fresh id appends it. -/
theorem upsertPolicyById_fresh (state : List Policy) (p : Policy)
    (hfresh : ∀ q ∈ state, q.id ≠ p.id) :
    upsertPolicyById state p = state ++ [p] := by
  unfold upsertPolicyById
  have h : state.any (fun q => q.id == p.id) = false := by
    rw [Bool.eq_false_iff]
    intro hany
    rw [List.any_eq_true] at hany
    obtain ⟨q, hq, hbeq⟩ := hany
    exact hfresh q hq (by simpa using hbeq)
  simp [h]

/-- Writing a policy document whose id is already present replaces it. -/
theorem upsertPolicyById_replace (state : List Policy) (p r : Policy)
    (hr : r ∈ state) (hid : r.id = p.id) :
    upsertPolicyById state p =
      state.map (fun q => if q.id == p.id then p else q) := by
  unfold upsertPolicyById
  rw [if_pos (List.any_eq_true.mpr ⟨r, hr, by simp [hid]⟩)]

/-- Conditions under which a policy `save()` succeeds, and its effect. -/
theorem savePolicy_ok_of (state : List Policy) (p : Policy)
    (h1 : ordersNodup (p.escalationSteps.map (·.order)) = true)
    (h2 : p.escalationSteps.all (fun s => s.escalationTargetId.isSome) = true)
    (h3 : state.any (fun q => q.id != p.id && q.teamId == p.teamId
      && q.version == p.version) = false) :
    savePolicy state p = .ok (upsertPolicyById state
      { p with escalationSteps := sortStepsByOrder p.escalationSteps }) := by
  unfold savePolicy
  rw [h1]
  rw [if_neg (by simp)]
  have hno : p.escalationSteps.any (fun s => s.escalationTargetId.isNone)
      = false := by
    rw [Bool.eq_false_iff]
    intro hany
    rw [List.any_eq_true] at hany
    obtain ⟨s, hsm, hnone⟩ := hany
    have hsome := List.all_eq_true.mp h2 s hsm
    simp only [Option.isNone_iff_eq_none] at hnone
    simp [hnone] at hsome
  rw [if_neg (by simp [hno])]
  rw [if_neg (by simp [h3])]

/-- Stored-document well-formedness: unique step orders, required target ids,
steps already in sorted form (every persist sorts them). -/
def policyDocOk (p : Policy) : Prop :=
  ordersNodup (p.escalationSteps.map (·.order)) = true ∧
  p.escalationSteps.all (fun s => s.escalationTargetId.isSome) = true ∧
  sortStepsByOrder p.escalationSteps = p.escalationSteps

instance (p : Policy) : Decidable (policyDocOk p) := by
  unfold policyDocOk; infer_instance

/-- Effect of a successful policy `save()`: the sorted document is upserted. -/
theorem savePolicy_ok_char (state : List Policy) (p : Policy) (st' : List Policy)
    (h : savePolicy state p = .ok st') :
    st' = upsertPolicyById state
      { p with escalationSteps := sortStepsByOrder p.escalationSteps } := by
  unfold savePolicy at h
  split at h
  · exact absurd h (by simp)
  · split at h
    · exact absurd h (by simp)
    · split at h
      · exact absurd h (by simp)
      · injection h with h
        exact h.symm

/-- Branch lemma: `createNewVersion` on a team with no non-deleted latest. -/
theorem createNewVersion_eq_none (state : List Policy) (teamId : Nat)
    (updates : PolicyUpdates) (newId : Nat)
    (h : findLatestRaw state teamId = none) :
    createNewVersion state teamId updates newId =
      insertPayload state
        ⟨newId, teamId, updates.policyName.getD "policy",
          updates.escalationSteps.getD [], 1, true, false, none⟩ := by
  unfold createNewVersion
  rw [h]

/-- Branch lemma: `createNewVersion` when flipping the latest fails. -/
theorem createNewVersion_eq_flipFail (state : List Policy) (teamId : Nat)
    (updates : PolicyUpdates) (newId : Nat) (latest : Policy) (e : Err)
    (h : findLatestRaw state teamId = some latest)
    (hflip : savePolicy state { latest with isLatest := false } = .error e) :
    createNewVersion state teamId updates newId = (state, .error e) := by
  unfold createNewVersion
  simp only [h, hflip]

/-- Branch lemma: `createNewVersion` when the flip write succeeds. -/
theorem createNewVersion_eq_flipOk (state : List Policy) (teamId : Nat)
    (updates : PolicyUpdates) (newId : Nat) (latest : Policy)
    (state1 : List Policy)
    (h : findLatestRaw state teamId = some latest)
    (hflip : savePolicy state { latest with isLatest := false } = .ok state1) :
    createNewVersion state teamId updates newId =
      insertPayload state1
        ⟨newId, teamId, updates.policyName.getD latest.policyName,
          updates.escalationSteps.getD latest.escalationSteps,
          latest.version + 1, true, false, none⟩ := by
  unfold createNewVersion
  simp only [h, hflip]

/-- Any member of the store after `insertPayload` is the written (sorted)
payload or a record that was already present. -/
theorem mem_insertPayload_fst (state : List Policy) (payload : Policy)
    (q : Policy) (hq : q ∈ (insertPayload state payload).1) :
    q = { payload with
        escalationSteps := sortStepsByOrder payload.escalationSteps }
      ∨ q ∈ state := by
  unfold insertPayload at hq
  cases h : savePolicy state payload with
  | error e =>
    rw [h] at hq
    right
    exact hq
  | ok state2 =>
    rw [h] at hq
    have hq2 : q ∈ state2 := hq
    rw [savePolicy_ok_char _ _ _ h] at hq2
    rcases mem_upsertPolicyById _ _ q hq2 with h' | ⟨hS, _⟩
    · left; exact h'
    · right; exact hS

/-- Preservation of the exactly-one-latest invariant by `createNewVersion`,
on every outcome path (flip failure, insert failure, success, fresh team). -/
theorem createNewVersion_preserves (state : List Policy) (teamId : Nat)
    (updates : PolicyUpdates) (newId : Nat)
    (hinv : atMostOneLatest state) :
    atMostOneLatest (createNewVersion state teamId updates newId).1 := by
  cases hlatest : findLatestRaw state teamId with
  | none =>
    rw [createNewVersion_eq_none state teamId updates newId hlatest]
    intro p hp q hq hab ht hd1 hd2 hl1 hl2
    rcases mem_insertPayload_fst _ _ p hp with hp' | hpS
    · rcases mem_insertPayload_fst _ _ q hq with hq' | hqS
      · exact hab (by rw [hp', hq'])
      · have hqteam : q.teamId = teamId := by rw [hp'] at ht; exact ht.symm
        exact findLatestRaw_none state teamId hlatest q hqS hqteam hl2 hd2
    · rcases mem_insertPayload_fst _ _ q hq with hq' | hqS
      · have hpteam : p.teamId = teamId := by rw [hq'] at ht; exact ht
        exact findLatestRaw_none state teamId hlatest p hpS hpteam hl1 hd1
      · exact hinv p hpS q hqS hab ht hd1 hd2 hl1 hl2
  | some latest =>
    obtain ⟨hlm, hlteam, hllat, hldel⟩ :=
      findLatestRaw_some state teamId latest hlatest
    cases hflip : savePolicy state { latest with isLatest := false } with
    | error e =>
      rw [createNewVersion_eq_flipFail state teamId updates newId latest e
        hlatest hflip]
      exact hinv
    | ok state1 =>
      rw [createNewVersion_eq_flipOk state teamId updates newId latest state1
        hlatest hflip]
      have hmem1 : ∀ q ∈ state1,
          q = { latest with
            isLatest := false,
            escalationSteps := sortStepsByOrder latest.escalationSteps } ∨
          (q ∈ state ∧ q.id ≠ latest.id) := by
        intro q hq
        rw [savePolicy_ok_char _ _ _ hflip] at hq
        exact mem_upsertPolicyById _ _ q hq
      have hinv1 : atMostOneLatest state1 := by
        intro p hp q hq hab ht hd1 hd2 hl1 hl2
        rcases hmem1 p hp with hp' | ⟨hpS, _⟩
        · rw [hp'] at hl1; simp at hl1
        · rcases hmem1 q hq with hq' | ⟨hqS, _⟩
          · rw [hq'] at hl2; simp at hl2
          · exact hinv p hpS q hqS hab ht hd1 hd2 hl1 hl2
      intro p hp q hq hab ht hd1 hd2 hl1 hl2
      rcases mem_insertPayload_fst _ _ p hp with hp' | hpS
      · rcases mem_insertPayload_fst _ _ q hq with hq' | hqS
        · exact hab (by rw [hp', hq'])
        · rcases hmem1 q hqS with hq'' | ⟨hqO, hqL⟩
          · rw [hq''] at hl2; simp at hl2
          · have hqteam : q.teamId = teamId := by rw [hp'] at ht; exact ht.symm
            exact hinv q hqO latest hlm hqL (hqteam.trans hlteam.symm)
              hd2 hldel hl2 hllat
      · rcases mem_insertPayload_fst _ _ q hq with hq' | hqS
        · rcases hmem1 p hpS with hp'' | ⟨hpO, hpL⟩
          · rw [hp''] at hl1; simp at hl1
          · have hpteam : p.teamId = teamId := by rw [hq'] at ht; exact ht
            exact hinv p hpO latest hlm hpL (hpteam.trans hlteam.symm)
              hd1 hldel hl1 hllat
        · exact hinv1 p hpS q hqS hab ht hd1 hd2 hl1 hl2

/-- Branch lemma: a failing payload save leaves the store untouched. -/
theorem insertPayload_eq_fail (state : List Policy) (payload : Policy) (e : Err)
    (h : savePolicy state payload = .error e) :
    insertPayload state payload = (state, .error e) := by
  unfold insertPayload
  rw [h]

/-- Branch lemma: a successful payload save upserts the sorted document. -/
theorem insertPayload_eq_ok (state : List Policy) (payload : Policy)
    (state2 : List Policy) (h : savePolicy state payload = .ok state2) :
    insertPayload state payload = (state2, .ok { payload with
      escalationSteps := sortStepsByOrder payload.escalationSteps }) := by
  unfold insertPayload
  rw [h]

/-! ## Claim C2 -/

/-- Claim C2: for every team, at most one non-deleted EscalationPolicy record
has isLatest = true; the invariant is preserved by `createNewVersion` on
every outcome path and by `rollbackToVersion` (which delegates to it), and on
a successful `createNewVersion` with a previous latest the created record has
isLatest = true while every record keeping the previous latest's id has been
flipped to isLatest = false before the insert. -/
theorem c2_theorem (state : List Policy) (teamId : Nat)
    (updates : PolicyUpdates) (newId : Nat)
    (hfresh : ∀ p ∈ state, p.id ≠ newId)
    (hinv : atMostOneLatest state) :
    atMostOneLatest (createNewVersion state teamId updates newId).1 ∧
    (∀ version,
      atMostOneLatest (rollbackToVersion state teamId version newId).1) ∧
    (∀ latest created, findLatestRaw state teamId = some latest →
      (createNewVersion state teamId updates newId).2 = .ok created →
      created.isLatest = true ∧
      ∀ q ∈ (createNewVersion state teamId updates newId).1,
        q.id = latest.id → q.isLatest = false) := by
  refine ⟨createNewVersion_preserves state teamId updates newId hinv, ?_, ?_⟩
  · intro version
    unfold rollbackToVersion
    cases hv : findVersionRaw state teamId version with
    | none => exact hinv
    | some target =>
      exact createNewVersion_preserves state teamId
        ⟨some target.policyName, some target.escalationSteps⟩ newId hinv
  · intro latest created hlatest hok
    obtain ⟨hlm, hlteam, hllat, hldel⟩ :=
      findLatestRaw_some state teamId latest hlatest
    cases hflip : savePolicy state { latest with isLatest := false } with
    | error e =>
      rw [createNewVersion_eq_flipFail state teamId updates newId latest e
        hlatest hflip] at hok
      exact absurd hok (by simp)
    | ok state1 =>
      rw [createNewVersion_eq_flipOk state teamId updates newId latest state1
        hlatest hflip] at hok ⊢
      cases hins : savePolicy state1
          ⟨newId, teamId, updates.policyName.getD latest.policyName,
            updates.escalationSteps.getD latest.escalationSteps,
            latest.version + 1, true, false, none⟩ with
      | error e =>
        rw [insertPayload_eq_fail _ _ e hins] at hok
        exact absurd hok (by simp)
      | ok state2 =>
        rw [insertPayload_eq_ok _ _ state2 hins] at hok ⊢
        have hok' : (Except.ok
            (⟨newId, teamId, updates.policyName.getD latest.policyName,
              sortStepsByOrder (updates.escalationSteps.getD
                latest.escalationSteps),
              latest.version + 1, true, false, none⟩ : Policy)
            : Except Err Policy) = .ok created := hok
        injection hok' with hcr
        constructor
        · rw [← hcr]
        · intro q hq hqid
          have hq2 : q ∈ state2 := hq
          rw [savePolicy_ok_char _ _ _ hins] at hq2
          rcases mem_upsertPolicyById _ _ q hq2 with hq' | ⟨hqS, _⟩
          · exfalso
            apply hfresh latest hlm
            rw [hq'] at hqid
            exact hqid.symm
          · rw [savePolicy_ok_char _ _ _ hflip] at hqS
            rcases mem_upsertPolicyById _ _ q hqS with hq'' | ⟨_, hqL⟩
            · rw [hq'']
            · exact absurd hqid hqL

/-- Claim C2 witness: creating a second version for a team whose single
policy is the version-1 latest yields a store that still has at most one
non-deleted latest record. -/
theorem c2_witness :
    atMostOneLatest (createNewVersion
      [⟨1, 7, "p", [⟨1, 30, EscKind.user, some 5⟩], 1, true, false, none⟩]
      7 ⟨some "q", some [⟨1, 30, EscKind.user, some 5⟩]⟩ 2).1 :=
  (c2_theorem [⟨1, 7, "p", [⟨1, 30, EscKind.user, some 5⟩], 1, true, false, none⟩]
    7 ⟨some "q", some [⟨1, 30, EscKind.user, some 5⟩]⟩ 2
    (by decide) (by decide)).1

/-- A policy whose steps are already sorted is unchanged by the pre-save
sort. -/
theorem sortSteps_id_of (p : Policy)
    (h : sortStepsByOrder p.escalationSteps = p.escalationSteps) :
    ({ p with escalationSteps := sortStepsByOrder p.escalationSteps } : Policy)
      = p := by
  rw [h]

/-- Branch lemma: inserting an already-sorted payload returns it verbatim. -/
theorem insertPayload_eq_ok_sorted (state : List Policy) (payload : Policy)
    (state2 : List Policy)
    (hsorted : sortStepsByOrder payload.escalationSteps
      = payload.escalationSteps)
    (h : savePolicy state payload = .ok state2) :
    insertPayload state payload = (state2, .ok payload) := by
  unfold insertPayload
  rw [h, hsorted]

/-! ## Claim C7 -/

/-- A successful version lookup returns a matching non-deleted member. -/
theorem findVersionRaw_some (state : List Policy) (teamId version : Nat)
    (target : Policy) (h : findVersionRaw state teamId version = some target) :
    target ∈ state ∧ target.teamId = teamId ∧ target.version = version ∧
      target.isDeleted = false := by
  unfold findVersionRaw at h
  have hm := List.mem_of_mem_head? h
  have hf := List.mem_filter.mp hm
  refine ⟨hf.1, ?_⟩
  have hp := hf.2
  simp only [Bool.and_eq_true, beq_iff_eq, Bool.not_eq_true'] at hp
  exact ⟨hp.1.1, hp.1.2, hp.2⟩

/-- C7 counterexample: version 1 of team 7, non-latest, non-deleted. -/
def c7v1 : Policy :=
  ⟨1, 7, "p", [⟨1, 30, EscKind.user, some 5⟩], 1, false, false, none⟩

/-- C7 counterexample: version 2 of team 7, the latest, soft-deleted. -/
def c7v2 : Policy :=
  ⟨2, 7, "p", [⟨1, 30, EscKind.user, some 5⟩], 2, true, true, some 0⟩

/-- Claim C7, counterexample: version 1 exists and is non-deleted, so the
claim demands a successful rollback creating a latest with a version
strictly greater than any prior; but the team's latest is soft-deleted, so
the latest-lookup inside createNewVersion is empty, the new version is
computed as (0 + 1) = 1, and the insert collides with the unique
(teamId, version) index: the rollback fails with a duplicate-key error (not
NotFound), creating nothing and leaving version numbers non-monotonic. -/
theorem c7_counterexample :
    findVersionRaw [c7v1, c7v2] 7 1 = some c7v1 ∧
    rollbackToVersion [c7v1, c7v2] 7 1 100 =
      ([c7v1, c7v2], .error .duplicateKey) :=
  ⟨rfl, rfl⟩

/-- Claim C7 (amended): rollbackToVersion raises NotFound exactly when the
requested version is absent (or soft-deleted) for the team; provided the
team has a non-deleted latest record carrying the team-maximal version,
per-team versions are unique, record ids are unique, the new id is fresh and
the stored documents are well-formed, the rollback creates a new latest
whose steps equal the target version's steps and whose version is strictly
greater than every prior version of the team, and every pre-existing record
survives with id, version, name and steps unchanged (only the previous
latest's isLatest flag is flipped).  When the latest has been soft-deleted
the version computation restarts at 1 and the write instead fails on the
unique (teamId, version) index, as the counterexample shows. -/
theorem c7_theorem (state : List Policy) (teamId version newId : Nat)
    (latest : Policy)
    (hids : (state.map (fun p => p.id)).Nodup)
    (hfresh : ∀ p ∈ state, p.id ≠ newId)
    (huniqv : ∀ p ∈ state, ∀ q ∈ state, p.id ≠ q.id → p.teamId = q.teamId →
      p.version ≠ q.version)
    (hlatest : findLatestRaw state teamId = some latest)
    (hlmax : ∀ p ∈ state, p.teamId = teamId → p.version ≤ latest.version)
    (hlok : policyDocOk latest) :
    (findVersionRaw state teamId version = none →
      rollbackToVersion state teamId version newId =
        (state, .error .notFound)) ∧
    (∀ target, findVersionRaw state teamId version = some target →
      policyDocOk target →
      ∃ state' created,
        rollbackToVersion state teamId version newId = (state', .ok created) ∧
        created.escalationSteps = target.escalationSteps ∧
        created.isLatest = true ∧ created.isDeleted = false ∧
        created.version = latest.version + 1 ∧
        (∀ p ∈ state, p.teamId = teamId → p.version < created.version) ∧
        created ∈ state' ∧
        (∀ p ∈ state, ∃ q ∈ state', q.id = p.id ∧ q.version = p.version ∧
          q.policyName = p.policyName ∧
          q.escalationSteps = p.escalationSteps)) := by
  obtain ⟨hlm, hlteam, hllat, hldel⟩ :=
    findLatestRaw_some state teamId latest hlatest
  constructor
  · intro hnone
    unfold rollbackToVersion
    rw [hnone]
  · intro target htarget htok
    obtain ⟨htm, htteam, htv, htdel⟩ :=
      findVersionRaw_some state teamId version target htarget
    -- the flip of the previous latest saves successfully
    have hflipOk : savePolicy state { latest with isLatest := false } =
        .ok (upsertPolicyById state { latest with isLatest := false }) := by
      have h := savePolicy_ok_of state { latest with isLatest := false }
        hlok.1 hlok.2.1 ?dup
      case dup =>
        rw [Bool.eq_false_iff]
        intro hany
        rw [List.any_eq_true] at hany
        obtain ⟨q, hq, hpred⟩ := hany
        simp only [Bool.and_eq_true, bne_iff_ne, ne_eq, beq_iff_eq] at hpred
        exact huniqv q hq latest hlm hpred.1.1 hpred.1.2 hpred.2
      rw [h, sortSteps_id_of { latest with isLatest := false } hlok.2.2]
    -- reduce the rollback
    unfold rollbackToVersion
    simp only [htarget]
    rw [createNewVersion_eq_flipOk state teamId
      ⟨some target.policyName, some target.escalationSteps⟩ newId latest _
      hlatest hflipOk]
    simp only [Option.getD_some]
    -- the insert saves successfully
    have hinsOk : savePolicy (upsertPolicyById state
        { latest with isLatest := false })
        ⟨newId, teamId, target.policyName, target.escalationSteps,
          latest.version + 1, true, false, none⟩ =
        .ok (upsertPolicyById (upsertPolicyById state
          { latest with isLatest := false })
          ⟨newId, teamId, target.policyName, target.escalationSteps,
            latest.version + 1, true, false, none⟩) := by
      have h := savePolicy_ok_of (upsertPolicyById state
        { latest with isLatest := false })
        ⟨newId, teamId, target.policyName, target.escalationSteps,
          latest.version + 1, true, false, none⟩
        htok.1 htok.2.1 ?dup2
      case dup2 =>
        rw [Bool.eq_false_iff]
        intro hany
        rw [List.any_eq_true] at hany
        obtain ⟨q, hq, hpred⟩ := hany
        simp only [Bool.and_eq_true, bne_iff_ne, ne_eq, beq_iff_eq] at hpred
        rcases mem_upsertPolicyById _ _ q hq with hq' | ⟨hqS, _⟩
        · have hv : q.version = latest.version := by rw [hq']
          have := hpred.2
          omega
        · have := hlmax q hqS hpred.1.2
          have := hpred.2
          omega
      rw [h, sortSteps_id_of
        (⟨newId, teamId, target.policyName, target.escalationSteps,
          latest.version + 1, true, false, none⟩ : Policy) htok.2.2]
    rw [insertPayload_eq_ok_sorted _
      (⟨newId, teamId, target.policyName, target.escalationSteps,
        latest.version + 1, true, false, none⟩ : Policy) _ htok.2.2 hinsOk]
    have hfr : ∀ q ∈ upsertPolicyById state { latest with isLatest := false },
        q.id ≠ newId := by
      intro q hq
      rcases mem_upsertPolicyById _ _ q hq with hq' | ⟨hqS, _⟩
      · rw [hq']
        exact hfresh latest hlm
      · exact hfresh q hqS
    refine ⟨_, _, rfl, rfl, rfl, rfl, rfl, ?_, ?_, ?_⟩
    · intro p hp ht
      have := hlmax p hp ht
      show p.version < latest.version + 1
      omega
    · rw [upsertPolicyById_fresh _ _ (fun q hq => hfr q hq)]
      simp
    · intro p hp
      rw [upsertPolicyById_fresh _ _ (fun q hq => hfr q hq)]
      rw [upsertPolicyById_replace state { latest with isLatest := false }
        latest hlm rfl]
      by_cases hpid : (p.id == latest.id) = true
      · have hpl : p = latest :=
          List.inj_on_of_nodup_map hids hp hlm (by simpa using hpid)
        refine ⟨{ latest with isLatest := false }, ?_, ?_, ?_, ?_, ?_⟩
        · rw [List.mem_append]
          left
          rw [List.mem_map]
          refine ⟨p, hp, ?_⟩
          have hcond : (p.id ==
              ({ latest with isLatest := false } : Policy).id) = true := by
            simpa using hpid
          simp [hcond]
        · rw [hpl]
        · rw [hpl]
        · rw [hpl]
        · rw [hpl]
      · refine ⟨p, ?_, rfl, rfl, rfl, rfl⟩
        rw [List.mem_append]
        left
        rw [List.mem_map]
        refine ⟨p, hp, ?_⟩
        have hcond : (p.id ==
            ({ latest with isLatest := false } : Policy).id) = false := by
          simpa using hpid
        simp [hcond]

/-- C7 witness base record: the single, latest, version-1 policy of team 7. -/
def c7base : Policy :=
  ⟨1, 7, "p", [⟨1, 30, EscKind.user, some 5⟩], 1, true, false, none⟩

/-- Claim C7 witness: rolling team 7 back to its own version 1 creates a new
latest with the same steps and version 2, leaving the original record's
content untouched. -/
theorem c7_witness :
    ∃ state' created,
      rollbackToVersion [c7base] 7 1 2 = (state', .ok created) ∧
      created.escalationSteps = c7base.escalationSteps ∧
      created.isLatest = true ∧ created.isDeleted = false ∧
      created.version = c7base.version + 1 ∧
      (∀ p ∈ [c7base], p.teamId = 7 → p.version < created.version) ∧
      created ∈ state' ∧
      (∀ p ∈ [c7base], ∃ q ∈ state', q.id = p.id ∧ q.version = p.version ∧
        q.policyName = p.policyName ∧
        q.escalationSteps = p.escalationSteps) :=
  (c7_theorem [c7base] 7 1 2 c7base (by decide) (by decide)
    (by decide) rfl (by decide) (by decide)).2 c7base rfl (by decide)

/-! ## Claim C10 -/

/-- Claim C10: `createNewVersion` derives the next version number solely
from the team's current non-deleted latest record (the `pre(/^find/)` hook
hides soft-deleted records from the latest-lookup); so for a team whose
latest policy has been soft-deleted, as soon as the write can go through
(the (teamId, version) slot for 1 being free), the next `createNewVersion`
assigns version 1 = (0 + 1) rather than previous + 1, making per-team
version numbers non-monotonic across a soft-delete of the latest record. -/
theorem c10_theorem (state : List Policy) (teamId : Nat)
    (updates : PolicyUpdates) (newId : Nat)
    (hnolatest : findLatestRaw state teamId = none)
    (hno1 : ∀ p ∈ state, p.teamId = teamId → p.version ≠ 1)
    (hpos : ∀ p ∈ state, p.teamId = teamId → 1 ≤ p.version)
    (hsteps : ordersNodup ((updates.escalationSteps.getD []).map
      (fun s => s.order)) = true)
    (htids : (updates.escalationSteps.getD []).all
      (fun s => s.escalationTargetId.isSome) = true) :
    ∃ state' created,
      createNewVersion state teamId updates newId = (state', .ok created) ∧
      created.version = 1 ∧
      ∀ p ∈ state, p.teamId = teamId → created.version ≤ p.version := by
  rw [createNewVersion_eq_none state teamId updates newId hnolatest]
  have hins : savePolicy state
      ⟨newId, teamId, updates.policyName.getD "policy",
        updates.escalationSteps.getD [], 1, true, false, none⟩ =
      .ok (upsertPolicyById state
        ⟨newId, teamId, updates.policyName.getD "policy",
          sortStepsByOrder (updates.escalationSteps.getD []), 1, true,
          false, none⟩) := by
    have h := savePolicy_ok_of state
      ⟨newId, teamId, updates.policyName.getD "policy",
        updates.escalationSteps.getD [], 1, true, false, none⟩
      hsteps htids ?dup
    case dup =>
      rw [Bool.eq_false_iff]
      intro hany
      rw [List.any_eq_true] at hany
      obtain ⟨q, hq, hpred⟩ := hany
      simp only [Bool.and_eq_true, bne_iff_ne, ne_eq, beq_iff_eq] at hpred
      exact hno1 q hq hpred.1.2 hpred.2
    exact h
  rw [insertPayload_eq_ok _ _ _ hins]
  refine ⟨_, _, rfl, rfl, ?_⟩
  intro p hp ht
  have := hpos p hp ht
  show 1 ≤ p.version
  omega

/-- Claim C10 witness: team 7's only record is its soft-deleted version-2
latest (version 1 was purged); the next createNewVersion succeeds with
version 1, which is not greater than the team's prior version 2. -/
theorem c10_witness :
    ∃ state' created,
      createNewVersion
        [⟨2, 7, "p", [⟨1, 30, EscKind.user, some 5⟩], 2, true, true, some 0⟩]
        7 ⟨some "q", some [⟨1, 30, EscKind.user, some 5⟩]⟩ 9 =
        (state', .ok created) ∧
      created.version = 1 ∧
      ∀ p ∈ [(⟨2, 7, "p", [⟨1, 30, EscKind.user, some 5⟩], 2, true, true,
        some 0⟩ : Policy)], p.teamId = 7 → created.version ≤ p.version :=
  c10_theorem
    [⟨2, 7, "p", [⟨1, 30, EscKind.user, some 5⟩], 2, true, true, some 0⟩]
    7 ⟨some "q", some [⟨1, 30, EscKind.user, some 5⟩]⟩ 9
    rfl (by decide) (by decide) (by decide) (by decide)

/-! ## Claim C9 -/

/-- Claim C9: responsibility resolution fails — and then always with
NotFound — exactly when the service name does not resolve to a non-deleted
service or the service's team id does not resolve to a team; when resolution
succeeds and the team's latest policy contains a step whose target id no
longer resolves to a user or team, the chain contains that step with the
missing placeholder target instead of the whole resolution failing.  The
embedded resolver consumes the stores and returns only the chain — it
performs no store write, matching the read-only controller. -/
theorem c9_theorem (services : List Svc) (teams : List TeamRec)
    (users : List UserRec) (schedules : List Schedule) (policies : List Policy)
    (serviceName : String) (now : Int) :
    ((∃ e, getResponsibilityForService services teams users schedules policies
        serviceName now = .error e) ↔
      ((services.filter (fun s => s.serviceName == serviceName
          && !s.isDeleted)).head? = none ∨
        ∃ svc, (services.filter (fun s => s.serviceName == serviceName
          && !s.isDeleted)).head? = some svc ∧
          (teams.find? (fun t => t.id == svc.teamId)).isNone = true)) ∧
    (∀ e, getResponsibilityForService services teams users schedules policies
        serviceName now = .error e → e = .notFound) ∧
    (∀ svc pol st tid chain,
      (services.filter (fun s => s.serviceName == serviceName
        && !s.isDeleted)).head? = some svc →
      (policies.filter (fun p => p.teamId == svc.teamId && p.isLatest
        && !p.isDeleted)).head? = some pol →
      st ∈ pol.escalationSteps →
      st.escalationTargetId = some tid →
      targetResolves users teams st.escalationType tid = false →
      getResponsibilityForService services teams users schedules policies
        serviceName now = .ok chain →
      (⟨st.order, st.escalationType, st.timeoutMinutes,
        ChainTarget.missing tid⟩ : ChainEntry) ∈ chain) := by
  cases hsvc : (services.filter (fun s => s.serviceName == serviceName
      && !s.isDeleted)).head? with
  | none =>
    have hres : getResponsibilityForService services teams users schedules
        policies serviceName now = .error .notFound := by
      unfold getResponsibilityForService
      rw [hsvc]
    refine ⟨?_, ?_, ?_⟩
    · constructor
      · intro _
        left
        rfl
      · intro _
        exact ⟨.notFound, hres⟩
    · intro e he
      rw [hres] at he
      injection he with h
      exact h.symm
    · intro svc pol st tid chain hsvc' _ _ _ _ _
      exact absurd hsvc' (by simp)
  | some svc =>
    by_cases hteam : ((teams.find? (fun t => t.id == svc.teamId)).isNone = true)
    · have hres : getResponsibilityForService services teams users schedules
          policies serviceName now = .error .notFound := by
        unfold getResponsibilityForService
        simp only [hsvc]
        rw [if_pos hteam]
      refine ⟨?_, ?_, ?_⟩
      · constructor
        · intro _
          right
          exact ⟨svc, rfl, hteam⟩
        · intro _
          exact ⟨.notFound, hres⟩
      · intro e he
        rw [hres] at he
        injection he with h
        exact h.symm
      · intro svc' pol st tid chain hsvc' hpol hst htid hresF hok
        rw [hres] at hok
        exact absurd hok (by simp)
    · have hok : ∃ chain, getResponsibilityForService services teams users
          schedules policies serviceName now = .ok chain := by
        unfold getResponsibilityForService
        simp only [hsvc]
        rw [if_neg hteam]
        exact ⟨_, rfl⟩
      obtain ⟨ch, hch⟩ := hok
      refine ⟨?_, ?_, ?_⟩
      · constructor
        · rintro ⟨e, he⟩
          rw [hch] at he
          exact absurd he (by simp)
        · rintro (h | ⟨svc', h1, h2⟩)
          · exact absurd h (by simp)
          · injection h1 with h1
            subst h1
            exact absurd h2 hteam
      · intro e he
        rw [hch] at he
        exact absurd he (by simp)
      · intro svc' pol st tid chain hsvc' hpol hst htid hresF hokEq
        injection hsvc' with hsvc'
        subst hsvc'
        unfold getResponsibilityForService at hokEq
        simp only [hsvc] at hokEq
        rw [if_neg hteam] at hokEq
        injection hokEq with hchain
        rw [← hchain]
        simp only [hpol, Option.map_some', Option.getD_some]
        rw [List.mem_append]
        right
        rw [List.mem_filterMap]
        refine ⟨st, hst, ?_⟩
        unfold chainEntryOfStep
        rw [htid]
        simp [hresF]

/-- Claim C9 witness: the service "billing" resolves to team 1 with an
on-call user and a latest policy whose single step targets the missing user
99; the resolver returns a chain containing that step with the missing
placeholder. -/
theorem c9_witness :
    (⟨1, EscKind.user, 30, ChainTarget.missing 99⟩ : ChainEntry) ∈
      [(⟨0, EscKind.user, 30, ChainTarget.found 1⟩ : ChainEntry),
        ⟨1, EscKind.user, 30, ChainTarget.missing 99⟩] :=
  (c9_theorem [⟨1, "billing", 1, false⟩] [⟨1, "t"⟩] [⟨1, "alice"⟩]
      [⟨1, 1, 1, 1, 0, 100, false, none⟩]
      [⟨1, 1, "p", [⟨1, 30, EscKind.user, some 99⟩], 1, true, false, none⟩]
      "billing" 50).2.2
    ⟨1, "billing", 1, false⟩
    ⟨1, 1, "p", [⟨1, 30, EscKind.user, some 99⟩], 1, true, false, none⟩
    ⟨1, 30, EscKind.user, some 99⟩ 99
    [⟨0, EscKind.user, 30, ChainTarget.found 1⟩,
      ⟨1, EscKind.user, 30, ChainTarget.missing 99⟩]
    rfl rfl (by simp) rfl rfl rfl

/-! ## Claim C1 -/

/-- C1 counterexample: schedule at (team 1, priority 1). -/
def c1keep : Schedule := ⟨1, 1, 1, 1, 0, 1000000, false, none⟩

/-- C1 counterexample: co-temporal schedule of the same team at priority 2. -/
def c1moved : Schedule := ⟨2, 1, 2, 2, 0, 1000000, false, none⟩

/-- Claim C1, counterexample: the update entry point checks overlaps only
when a time field changes and `findByIdAndUpdate` bypasses the `pre("save")`
auto-resolution hook entirely; a successful priorityLevel-only update moves
the priority-2 schedule onto (team 1, priority 1), leaving two non-deleted
schedules of that (team, priorityLevel) overlapping for 1000 seconds — far
beyond the 5-minute grace margin — so the invariant does not survive every
successful write sequence. -/
theorem c1_counterexample :
    noExcessiveOverlap [c1keep, c1moved] defaultGraceMs ∧
    updateOnCallSchedule [c1keep, c1moved] 2 ⟨none, none, some 1⟩ =
      .ok [c1keep, { c1moved with priorityLevel := 1 }] ∧
    ¬ noExcessiveOverlap [c1keep, { c1moved with priorityLevel := 1 }]
      defaultGraceMs := by
  refine ⟨by decide, rfl, by decide⟩

/-- Claim C1 (amended): the no-excessive-overlap invariant — for each
(team, priorityLevel), no two distinct non-deleted schedules overlap beyond
the grace margin — is preserved by every successful run of the external
creation entry point (whose reject-mode check makes the auto-resolution hook
skip every enumerated conflict); it is not preserved by the update entry
point, which can change priorityLevel (or teamId) without any overlap check
or auto-resolution, as the counterexample shows. -/
theorem c1_theorem (state : List Schedule) (teamId userId priorityLevel : Nat)
    (startT endT : Int) (newId : Nat) (now : Int)
    (hwf : ∀ s ∈ state, s.startTime < s.endTime)
    (hfresh : ∀ s ∈ state, s.id ≠ newId)
    (hinv : noExcessiveOverlap state defaultGraceMs) :
    ∀ state', createOnCallSchedule state teamId userId priorityLevel
        startT endT newId now = .ok state' →
      noExcessiveOverlap state' defaultGraceMs := by
  intro state' hok
  unfold createOnCallSchedule at hok
  by_cases hse : startT ≥ endT
  · rw [if_pos hse] at hok
    exact absurd hok (by simp)
  rw [if_neg hse] at hok
  by_cases hfind : ((state.find? (rejectOverlap teamId startT endT)).isSome
      = true)
  · rw [if_pos hfind] at hok
    exact absurd hok (by simp)
  rw [if_neg hfind] at hok
  have hnone : state.find? (rejectOverlap teamId startT endT) = none := by
    cases h : state.find? (rejectOverlap teamId startT endT)
    · rfl
    · exact absurd (by simp [h]) hfind
  rw [List.find?_eq_none] at hnone
  have hreject : ∀ s ∈ state, s.teamId = teamId → s.isDeleted = false →
      endT < s.startTime ∨ s.endTime < startT := by
    intro s hs h1 h2
    have hns := hnone s hs
    by_contra hcon
    push_neg at hcon
    apply hns
    simp only [rejectOverlap, Bool.and_eq_true, decide_eq_true_eq,
      beq_iff_eq, Bool.not_eq_true', ge_iff_le]
    exact ⟨⟨⟨h1, h2⟩, by omega⟩, by omega⟩
  -- every conflict the hook enumerates lies within the grace margin
  have hskip : ∀ c ∈ conflictsQuery state
      ⟨newId, teamId, userId, priorityLevel, startT, endT, false, none⟩
      defaultGraceMs,
      |overlapDuration c
        ⟨newId, teamId, userId, priorityLevel, startT, endT, false, none⟩|
        ≤ defaultGraceMs := by
    intro c hc
    have hcf := List.mem_filter.mp hc
    obtain ⟨hcs, hcp⟩ := hcf
    simp only [inConflictWindow, Bool.and_eq_true, decide_eq_true_eq,
      beq_iff_eq, bne_iff_ne, ne_eq, Bool.not_eq_true'] at hcp
    have hrej := hreject c hcs hcp.1.1.1.1.2 hcp.1.1.2
    have hwfc := hwf c hcs
    have h1 : c.startTime < endT + defaultGraceMs := hcp.1.2
    have h2 : c.endTime > startT - defaultGraceMs := hcp.2
    have hov : overlapDuration c
        ⟨newId, teamId, userId, priorityLevel, startT, endT, false, none⟩ =
        min c.endTime endT - max c.startTime startT := rfl
    rw [hov, abs_le]
    rw [show defaultGraceMs = 300000 from rfl] at h1 h2 ⊢
    constructor <;> omega
  have hloop := resolveLoop_skip_all
    (fun st c => saveSchedule state.length st c defaultGraceMs now) state
    ⟨newId, teamId, userId, priorityLevel, startT, endT, false, none⟩
    defaultGraceMs now
    (conflictsQuery state
      ⟨newId, teamId, userId, priorityLevel, startT, endT, false, none⟩
      defaultGraceMs) hskip
  rw [show state.length + 1 = Nat.succ state.length from rfl] at hok
  rw [saveSchedule] at hok
  cases hv : validSchedule
      ⟨newId, teamId, userId, priorityLevel, startT, endT, false, none⟩ with
  | false =>
    rw [hv] at hok
    exact absurd hok (by simp)
  | true =>
    rw [hv] at hok
    rw [if_neg (by simp)] at hok
    rw [if_neg (by simp)] at hok
    rw [hloop] at hok
    have hok2 : Except.ok (upsertById state
        ⟨newId, teamId, userId, priorityLevel, startT, endT, false, none⟩) =
        Except.ok state' := hok
    rw [upsertById_fresh state _ (fun s hs => hfresh s hs)] at hok2
    injection hok2 with hok2
    subst hok2
    intro a ha b hb hab hteam hprio hadel hbdel
    rcases List.mem_append.mp ha with haS | haD
    · rcases List.mem_append.mp hb with hbS | hbD
      · exact hinv a haS b hbS hab hteam hprio hadel hbdel
      · have hbd : b = ⟨newId, teamId, userId, priorityLevel, startT, endT,
            false, none⟩ := by simpa using hbD
        subst hbd
        have hrej := hreject a haS (by simpa using hteam) hadel
        have hov : overlapDuration a
            ⟨newId, teamId, userId, priorityLevel, startT, endT, false, none⟩
            = min a.endTime endT - max a.startTime startT := rfl
        rw [hov, show defaultGraceMs = 300000 from rfl]
        omega
    · have had : a = ⟨newId, teamId, userId, priorityLevel, startT, endT,
          false, none⟩ := by simpa using haD
      subst had
      rcases List.mem_append.mp hb with hbS | hbD
      · have hrej := hreject b hbS (by simpa using hteam.symm) hbdel
        have hov : overlapDuration
            ⟨newId, teamId, userId, priorityLevel, startT, endT, false, none⟩
            b = min endT b.endTime - max startT b.startTime := rfl
        rw [hov, show defaultGraceMs = 300000 from rfl]
        omega
      · have hbd : b = ⟨newId, teamId, userId, priorityLevel, startT, endT,
            false, none⟩ := by simpa using hbD
        subst hbd
        exact absurd rfl hab

/-- Claim C1 witness: creating a disjoint schedule for the team via the
entry point succeeds and the resulting store satisfies the invariant. -/
theorem c1_witness :
    noExcessiveOverlap [⟨1, 1, 1, 1, 0, 1000, false, none⟩,
      ⟨2, 1, 2, 1, 2000, 3000, false, none⟩] defaultGraceMs :=
  c1_theorem [⟨1, 1, 1, 1, 0, 1000, false, none⟩] 1 2 1 2000 3000 2 0
    (by decide) (by decide) (by decide)
    [⟨1, 1, 1, 1, 0, 1000, false, none⟩, ⟨2, 1, 2, 1, 2000, 3000, false, none⟩]
    (by decide)

end TeamUserService
